import Mathlib

/-!
# UUID value type of `sdk/go/uuid/uuid.go`

A shallow embedding of the Go package `uuid`: a byte is a natural number
below 256, a Go `string` / `[]byte` is the list of its bytes, and the array
type `UUID = [16]byte` is a list of bytes that is `UUID.Valid` (sixteen
entries, each below 256).  Functions returning `(UUID, error)` return a pair
whose second component is `none` for the Go `nil` error.
-/

namespace uuid

/-- Go `type UUID [16]byte`, as the list of its octets. -/
abbrev UUID := List Nat

/-- Well-formedness of an array value `[16]byte`: sixteen octets, each a byte. -/
def UUID.Valid (u : UUID) : Prop := u.length = 16 ∧ ∀ b ∈ u, b < 256

instance (u : UUID) : Decidable (UUID.Valid u) := by
  unfold UUID.Valid; exact inferInstance

/-- Go `var Nil UUID`: the zero value of the array type. -/
def Nil : UUID := List.replicate 16 0

/-- Error values of the package.  `ErrInvalidUUIDFormat` and `ErrInvalidLength`
are the two package variables; `readError` stands for whatever error
`io.ReadFull(rand.Reader, ..)` reports; `cannotConvert` is the error built by
`fmt.Errorf("uuid: cannot convert %T to UUID", src)` in `Scan`. -/
inductive Error where
  | ErrInvalidUUIDFormat
  | ErrInvalidLength
  | readError
  | cannotConvert
  deriving DecidableEq, Repr

open Error

/-- The bytes of an ASCII string literal (a Go `string` is its byte sequence). -/
def asciiBytes (s : String) : List Nat := s.toList.map Char.toNat

/-- Go `NewUUIDv4`.  The parameter is the outcome of
`io.ReadFull(rand.Reader, u[:])`: either an error, or the sixteen octets that
were drawn into `u`. -/
def NewUUIDv4 (drawn : Except Error (List Nat)) : UUID × Option Error :=
  match drawn with
  | .error err => (Nil, some err)
  | .ok u =>
    let u := u.set 6 ((u.getD 6 0 &&& 0x0f) ||| 0x40)
    let u := u.set 8 ((u.getD 8 0 &&& 0x3f) ||| 0x80)
    (u, none)

/-- Go `xtob`: decodes two hex characters into one byte.  The character
constants are written as their codes: `'0'` = 48, `'9'` = 57, `'a'` = 97,
`'f'` = 102, `'A'` = 65, `'F'` = 70.  Byte arithmetic wraps modulo 256. -/
def xtob (a b : Nat) : Nat × Bool :=
  -- High nibble
  let hi : Option Nat :=
    if 48 ≤ a ∧ a ≤ 57 then some (((a - 48) <<< 4) % 256)
    else if 97 ≤ a ∧ a ≤ 102 then some (((a - 97 + 10) <<< 4) % 256)
    else if 65 ≤ a ∧ a ≤ 70 then some (((a - 65 + 10) <<< 4) % 256)
    else none
  match hi with
  | none => (0, false)
  | some v =>
    -- Low nibble
    if 48 ≤ b ∧ b ≤ 57 then (v ||| (b - 48), true)
    else if 97 ≤ b ∧ b ≤ 102 then (v ||| (b - 97 + 10), true)
    else if 65 ≤ b ∧ b ≤ 70 then (v ||| (b - 65 + 10), true)
    else (0, false)

/-- The offsets `[]int{0, 2, 4, 6, 9, 11, 14, 16, 19, 21, 24, 26, 28, 30, 32, 34}`
ranged over by the loop of `Parse`. -/
def pairOffsets : List Nat := [0, 2, 4, 6, 9, 11, 14, 16, 19, 21, 24, 26, 28, 30, 32, 34]

/-- The loop `for i, x := range offsets` of `Parse`, started at index `i` with
the remaining offsets: an undecodable pair returns `Nil` and the format error
at once, otherwise `u[i] = v` and the loop goes on. -/
def parseLoop (s : List Nat) : Nat → List Nat → UUID → UUID × Option Error
  | _, [], u => (u, none)
  | i, x :: rest, u =>
    match xtob (s.getD x 0) (s.getD (x + 1) 0) with
    | (v, true) => parseLoop s (i + 1) rest (u.set i v)
    | (_, false) => (Nil, some ErrInvalidUUIDFormat)

/-- Go `Parse`.  The dash `'-'` has code 45. -/
def Parse (s : List Nat) : UUID × Option Error :=
  if s.length ≠ 36 then (Nil, some ErrInvalidLength)
  else if s.getD 8 0 ≠ 45 ∨ s.getD 13 0 ≠ 45 ∨ s.getD 18 0 ≠ 45 ∨ s.getD 23 0 ≠ 45 then
    (Nil, some ErrInvalidUUIDFormat)
  else parseLoop s 0 pairOffsets (List.replicate 16 0)

/-- Go `Validate`: the error of `Parse`, the value dropped. -/
def Validate (s : List Nat) : Option Error := (Parse s).2

/-- The table `hextable = "0123456789abcdef"` of the Go standard library
package `encoding/hex`, as character codes. -/
def hextable : List Nat :=
  [48, 49, 50, 51, 52, 53, 54, 55, 56, 57, 97, 98, 99, 100, 101, 102]

/-- Go standard library `hex.Encode(dst[off:..], src)`: for the `j`-th byte `v`
of `src`, `dst[off+2j] = hextable[v>>4]` and `dst[off+2j+1] = hextable[v&0x0f]`. -/
def hexEncode (dst : List Nat) (off : Nat) : List Nat → List Nat
  | [] => dst
  | v :: src =>
    hexEncode ((dst.set off (hextable.getD (v >>> 4) 0)).set (off + 1)
      (hextable.getD (v &&& 0x0f) 0)) (off + 2) src

/-- Go slice expression `u[lo:hi]`. -/
def slice (u : List Nat) (lo hi : Nat) : List Nat := (u.take hi).drop lo

/-- Go `encodeHex`: writes the canonical text of `u` into the buffer `dst`. -/
def encodeHex (dst : List Nat) (u : UUID) : List Nat :=
  let dst := hexEncode dst 0 (slice u 0 4)
  let dst := dst.set 8 45
  let dst := hexEncode dst 9 (slice u 4 6)
  let dst := dst.set 13 45
  let dst := hexEncode dst 14 (slice u 6 8)
  let dst := dst.set 18 45
  let dst := hexEncode dst 19 (slice u 8 10)
  let dst := dst.set 23 45
  hexEncode dst 24 (slice u 10 16)

/-- Go `UUID.String`: `encodeHex` into a fresh 36-byte buffer. -/
def UUID.String (u : UUID) : List Nat := encodeHex (List.replicate 36 0) u

/-- Go `UUID.MarshalText`. -/
def UUID.MarshalText (u : UUID) : List Nat × Option Error :=
  (encodeHex (List.replicate 36 0) u, none)

/-- Go `(*UUID).UnmarshalText`: the receiver after the call, and the error. -/
def UUID.UnmarshalText (u : UUID) (data : List Nat) : UUID × Option Error :=
  match Parse data with
  | (id, none) => (id, none)
  | (_, some err) => (u, some err)

/-- Go `UUID.MarshalBinary`. -/
def UUID.MarshalBinary (u : UUID) : List Nat × Option Error := (slice u 0 16, none)

/-- Go `(*UUID).UnmarshalBinary`: the receiver after the call, and the error. -/
def UUID.UnmarshalBinary (u : UUID) (data : List Nat) : UUID × Option Error :=
  if data.length ≠ 16 then (u, some ErrInvalidLength)
  else (data.take 16 ++ u.drop 16, none)

/-- Go `UUID.Value`: the `driver.Value` written to storage is the canonical text. -/
def UUID.Value (u : UUID) : List Nat × Option Error := (UUID.String u, none)

/-- The dynamic kinds of the argument `src interface{}` of `Scan`: a `UUID`, a
`[]byte`, a `string`, the untyped `nil`, or a value of any other type. -/
inductive Src where
  | uuid (v : UUID)
  | bytes (b : List Nat)
  | str (s : List Nat)
  | nil
  | other
  deriving DecidableEq, Repr

/-- Go `(*UUID).Scan`: the receiver after the call, and the error. -/
def UUID.Scan (u : UUID) : Src → UUID × Option Error
  | .uuid v => (v, none)
  | .bytes b =>
    if b.length = 16 then (b.take 16 ++ u.drop 16, none)
    else UUID.UnmarshalText u b
  | .str s => UUID.UnmarshalText u s
  | .nil => (Nil, none)
  | .other => (u, some cannotConvert)

/-- Go `UUID.Version`. -/
def UUID.Version (u : UUID) : Nat := u.getD 6 0 >>> 4

/-- Go `UUID.Variant`. -/
def UUID.Variant (u : UUID) : Nat := (u.getD 8 0 >>> 5) ^^^ 0x04

/-- Whether a character code is a hex digit `0-9`, `a-f` or `A-F`. -/
def isHexDigit (c : Nat) : Prop :=
  (48 ≤ c ∧ c ≤ 57) ∨ (97 ≤ c ∧ c ≤ 102) ∨ (65 ≤ c ∧ c ≤ 70)

instance (c : Nat) : Decidable (isHexDigit c) := by
  unfold isHexDigit; exact inferInstance

/-- Whether a character code is a lower-case hex digit `0-9` or `a-f`. -/
def isLowerHexDigit (c : Nat) : Prop := (48 ≤ c ∧ c ≤ 57) ∨ (97 ≤ c ∧ c ≤ 102)

instance (c : Nat) : Decidable (isLowerHexDigit c) := by
  unfold isLowerHexDigit; exact inferInstance

/-- Numeric value of a hex digit character (0 for any other character). -/
def hexval (c : Nat) : Nat :=
  if 48 ≤ c ∧ c ≤ 57 then c - 48
  else if 97 ≤ c ∧ c ≤ 102 then c - 97 + 10
  else if 65 ≤ c ∧ c ≤ 70 then c - 65 + 10
  else 0

/-- ASCII lower-casing of one character code: `A-Z` (65..90) go to `a-z`. -/
def lowerChar (c : Nat) : Nat := if 65 ≤ c ∧ c ≤ 90 then c + 32 else c

/-- ASCII lower-casing of a text. -/
def lowercase (s : List Nat) : List Nat := s.map lowerChar

/-- Whether an offset of the 36-character text is one of the dash offsets. -/
def isDashOffset (i : Nat) : Prop := i = 8 ∨ i = 13 ∨ i = 18 ∨ i = 23

instance (i : Nat) : Decidable (isDashOffset i) := by
  unfold isDashOffset; exact inferInstance

/-- Value of the two-character hex pair of `s` that starts at offset `x`:
sixteen times the value of the first character plus the value of the second. -/
def pairValue (s : List Nat) (x : Nat) : Nat :=
  16 * hexval (s.getD x 0) + hexval (s.getD (x + 1) 0)

/-- Whether both characters of the pair of `s` at offset `x` are hex digits. -/
def pairOk (s : List Nat) (x : Nat) : Prop :=
  isHexDigit (s.getD x 0) ∧ isHexDigit (s.getD (x + 1) 0)

instance (s : List Nat) (x : Nat) : Decidable (pairOk s x) := by
  unfold pairOk; exact inferInstance

/-- The stores `u[i] = v` of the loop of `Parse` when every pair decodes. -/
def storePairs (s : List Nat) : Nat → List Nat → UUID → UUID
  | _, [], u => u
  | i, x :: rest, u => storePairs s (i + 1) rest (u.set i (pairValue s x))

/-- The text `hex.Encode` produces for a byte sequence: for each byte, the
character of its high nibble, then the character of its low nibble. -/
def hexDigits : List Nat → List Nat
  | [] => []
  | v :: src => hextable.getD (v >>> 4) 0 :: hextable.getD (v &&& 0x0f) 0 :: hexDigits src

/-- The octets of the identifier `550e8400-e29b-41d4-a716-446655440000`. -/
def sampleV4 : UUID :=
  [0x55, 0x0e, 0x84, 0x00, 0xe2, 0x9b, 0x41, 0xd4, 0xa7, 0x16, 0x44, 0x66, 0x55, 0x44, 0x00, 0x00]

/-- A value that is not a version-4 identifier: version nibble 1, variant bits `110`. -/
def sampleV1 : UUID :=
  [0x6b, 0xa7, 0xb8, 0x10, 0x9d, 0xad, 0x11, 0xd1, 0xc0, 0xb4, 0x00, 0xc0, 0x4f, 0xd4, 0x30, 0xc8]

/-- An accepted text with upper-case hex digits. -/
def sampleUpper : List Nat := asciiBytes "550E8400-E29B-41D4-A716-446655440ABC"

/-- A 36-character text with the dashes in place and a non-hex character `g`
in its last pair. -/
def sampleBadHex : List Nat := asciiBytes "550e8400-e29b-41d4-a716-4466554400g0"

/-- The 35-character text `550e8400-e29b-41d4-a716-44665544000`. -/
def sampleShort : List Nat := asciiBytes "550e8400-e29b-41d4-a716-44665544000"

/-- The 36-character text `550e8400_e29b-41d4-a716-446655440000`, with `_` at offset 8. -/
def sampleBadDash : List Nat := asciiBytes "550e8400_e29b-41d4-a716-446655440000"

/-- The lower-case hex digit character for a nibble value: `0-9` for 0..9 and
`a-f` for 10..15. -/
def hexDigitChar (n : Nat) : Nat := if n < 10 then 48 + n else 87 + n

/-- The text that writes each octet as two lower-case hex digits, high nibble
first, in octet order. -/
def hexText : List Nat → List Nat
  | [] => []
  | b :: l => hexDigitChar (b / 16) :: hexDigitChar (b % 16) :: hexText l

/-- The text `550e8400-e29b-41d4-a716-446655440000`. -/
def sampleText : List Nat := asciiBytes "550e8400-e29b-41d4-a716-446655440000"

/-- A sixteen-character text, which `Scan` hands to the text decoder. -/
def sampleText16 : List Nat := asciiBytes "0123456789abcdef"

/-! ## Auxiliary facts about the hex codec -/

theorem shift_or_nibble : ∀ h < 16, ∀ l < 16, ((h <<< 4) % 256) ||| l = 16 * h + l := by
  decide

theorem hexval_lt (c : Nat) : hexval c < 16 := by
  unfold hexval; split_ifs <;> omega

theorem xtob_hi (a : Nat) :
    (if 48 ≤ a ∧ a ≤ 57 then some (((a - 48) <<< 4) % 256)
      else if 97 ≤ a ∧ a ≤ 102 then some (((a - 97 + 10) <<< 4) % 256)
      else if 65 ≤ a ∧ a ≤ 70 then some (((a - 65 + 10) <<< 4) % 256)
      else none)
    = if isHexDigit a then some ((hexval a <<< 4) % 256) else none := by
  unfold isHexDigit hexval
  split_ifs <;> first | rfl | (exfalso; omega)

theorem xtob_lo (v b : Nat) :
    (if 48 ≤ b ∧ b ≤ 57 then (v ||| (b - 48), true)
      else if 97 ≤ b ∧ b ≤ 102 then (v ||| (b - 97 + 10), true)
      else if 65 ≤ b ∧ b ≤ 70 then (v ||| (b - 65 + 10), true)
      else (0, false))
    = if isHexDigit b then (v ||| hexval b, true) else (0, false) := by
  unfold isHexDigit hexval
  split_ifs <;> first | rfl | (exfalso; omega)

theorem xtob_eq (a b : Nat) :
    xtob a b = if isHexDigit a ∧ isHexDigit b then (16 * hexval a + hexval b, true)
      else (0, false) := by
  unfold xtob
  simp only [xtob_hi, xtob_lo]
  by_cases ha : isHexDigit a
  · by_cases hb : isHexDigit b
    · simp [ha, hb, shift_or_nibble _ (hexval_lt a) _ (hexval_lt b)]
    · simp [ha, hb]
  · simp [ha]

theorem parseLoop_eq (s : List Nat) (xs : List Nat) :
    ∀ (i : Nat) (u : UUID), parseLoop s i xs u =
      if ∀ x ∈ xs, pairOk s x then (storePairs s i xs u, none)
      else (Nil, some ErrInvalidUUIDFormat) := by
  induction xs with
  | nil => intro i u; simp [parseLoop, storePairs]
  | cons x rest ih =>
    intro i u
    rw [parseLoop, xtob_eq]
    by_cases hx : pairOk s x
    · have hx2 : isHexDigit (s.getD x 0) ∧ isHexDigit (s.getD (x + 1) 0) := hx
      rw [if_pos hx2]
      simp only [ih, storePairs, pairValue, List.forall_mem_cons, hx, true_and]
    · have hx2 : ¬ (isHexDigit (s.getD x 0) ∧ isHexDigit (s.getD (x + 1) 0)) := hx
      rw [if_neg hx2]
      simp only [List.forall_mem_cons, hx, false_and, if_false]

theorem storePairs_offsets (s : List Nat) :
    storePairs s 0 pairOffsets (List.replicate 16 0) = pairOffsets.map (pairValue s) := rfl

theorem Parse_eq (s : List Nat) :
    Parse s =
      if s.length ≠ 36 then (Nil, some ErrInvalidLength)
      else if s.getD 8 0 ≠ 45 ∨ s.getD 13 0 ≠ 45 ∨ s.getD 18 0 ≠ 45 ∨ s.getD 23 0 ≠ 45 then
        (Nil, some ErrInvalidUUIDFormat)
      else if ∀ x ∈ pairOffsets, pairOk s x then (pairOffsets.map (pairValue s), none)
      else (Nil, some ErrInvalidUUIDFormat) := by
  unfold Parse
  rw [parseLoop_eq, storePairs_offsets]

/-! ## Lists of known length -/

theorem list_eq_map_range (v : List Nat) :
    v = (List.range v.length).map (fun i => v.getD i 0) := by
  apply List.ext_getElem
  · simp
  · intro i h1 h2
    simp [List.getD, List.getElem?_eq_getElem h1]

theorem list16_eq (v : List Nat) (h : v.length = 16) :
    v = [v.getD 0 0, v.getD 1 0, v.getD 2 0, v.getD 3 0, v.getD 4 0, v.getD 5 0, v.getD 6 0,
      v.getD 7 0, v.getD 8 0, v.getD 9 0, v.getD 10 0, v.getD 11 0, v.getD 12 0, v.getD 13 0,
      v.getD 14 0, v.getD 15 0] := by
  have h0 := list_eq_map_range v
  rw [h] at h0
  exact h0

theorem getD_lt_of_valid (v : UUID) (h : UUID.Valid v) (i : Nat) : v.getD i 0 < 256 := by
  by_cases hi : i < v.length
  · have : v.getD i 0 = v[i] := by simp [List.getD, List.getElem?_eq_getElem hi]
    rw [this]
    exact h.2 _ (List.getElem_mem hi)
  · have : v.getD i 0 = 0 := by
      simp [List.getD, List.getElem?_eq_none (Nat.le_of_not_lt hi)]
    omega

theorem hexDigits_length (src : List Nat) : (hexDigits src).length = 2 * src.length := by
  induction src with
  | nil => rfl
  | cons v src ih => simp only [hexDigits, List.length_cons, ih]; omega

/-- One call `hex.Encode(dst[off:..], src)` on a buffer whose tail is still zero. -/
theorem hexEncode_zeros (src : List Nat) :
    ∀ (pre : List Nat) (off n : Nat), off = pre.length → 2 * src.length ≤ n →
      hexEncode (pre ++ List.replicate n 0) off src =
        (pre ++ hexDigits src) ++ List.replicate (n - 2 * src.length) 0 := by
  induction src with
  | nil => intro pre off n _ _; simp [hexEncode, hexDigits]
  | cons v src ih =>
    intro pre off n hoff hn
    obtain ⟨m, rfl⟩ : ∃ m, n = m + 2 := ⟨n - 2, by simp only [List.length_cons] at hn; omega⟩
    subst hoff
    have h1 : ((pre ++ List.replicate (m + 2) 0).set pre.length
          (hextable.getD (v >>> 4) 0)).set (pre.length + 1) (hextable.getD (v &&& 0x0f) 0) =
        (pre ++ [hextable.getD (v >>> 4) 0, hextable.getD (v &&& 0x0f) 0]) ++
          List.replicate m 0 := by
      simp [List.replicate_succ, List.set_append]
    rw [hexEncode, h1, ih _ _ m (by simp) (by simp only [List.length_cons] at hn; omega)]
    simp only [hexDigits, List.length_cons, List.append_assoc, List.cons_append, List.nil_append]
    have hm : m + 2 - 2 * (src.length + 1) = m - 2 * src.length := by omega
    rw [hm]

/-- One store `dst[off] = '-'` on a buffer whose tail is still zero. -/
theorem set_dash_zeros (pre : List Nat) (off n : Nat) (hoff : off = pre.length) :
    (pre ++ List.replicate (n + 1) 0).set off 45 = (pre ++ [45]) ++ List.replicate n 0 := by
  subst hoff
  simp [List.replicate_succ, List.set_append]

/-- The text written by `UUID.String`, group by group. -/
theorem String_layout (u : UUID) (h : u.length = 16) :
    UUID.String u =
      hexDigits (slice u 0 4) ++ [45] ++ hexDigits (slice u 4 6) ++ [45] ++
      hexDigits (slice u 6 8) ++ [45] ++ hexDigits (slice u 8 10) ++ [45] ++
      hexDigits (slice u 10 16) := by
  have l1 : (slice u 0 4).length = 4 := by simp [slice]; omega
  have l2 : (slice u 4 6).length = 2 := by simp [slice]; omega
  have l3 : (slice u 6 8).length = 2 := by simp [slice]; omega
  have l4 : (slice u 8 10).length = 2 := by simp [slice]; omega
  have l5 : (slice u 10 16).length = 6 := by simp [slice]; omega
  have s1 : hexEncode (List.replicate 36 0) 0 (slice u 0 4) =
      hexDigits (slice u 0 4) ++ List.replicate 28 0 := by
    have t := hexEncode_zeros (slice u 0 4) [] 0 36 rfl (by omega)
    rw [l1] at t
    exact t
  have s2 := set_dash_zeros (hexDigits (slice u 0 4)) 8 27 (by simp [hexDigits_length, l1])
  have s3 := hexEncode_zeros (slice u 4 6) (hexDigits (slice u 0 4) ++ [45]) 9 27
    (by simp [hexDigits_length, l1]) (by omega)
  rw [l2] at s3
  have s4 := set_dash_zeros (hexDigits (slice u 0 4) ++ [45] ++ hexDigits (slice u 4 6)) 13 22
    (by simp [hexDigits_length, l1, l2])
  have s5 := hexEncode_zeros (slice u 6 8)
    (hexDigits (slice u 0 4) ++ [45] ++ hexDigits (slice u 4 6) ++ [45]) 14 22
    (by simp [hexDigits_length, l1, l2]) (by omega)
  rw [l3] at s5
  have s6 := set_dash_zeros (hexDigits (slice u 0 4) ++ [45] ++ hexDigits (slice u 4 6) ++ [45]
    ++ hexDigits (slice u 6 8)) 18 17 (by simp [hexDigits_length, l1, l2, l3])
  have s7 := hexEncode_zeros (slice u 8 10)
    (hexDigits (slice u 0 4) ++ [45] ++ hexDigits (slice u 4 6) ++ [45]
      ++ hexDigits (slice u 6 8) ++ [45]) 19 17
    (by simp [hexDigits_length, l1, l2, l3]) (by omega)
  rw [l4] at s7
  have s8 := set_dash_zeros (hexDigits (slice u 0 4) ++ [45] ++ hexDigits (slice u 4 6) ++ [45]
    ++ hexDigits (slice u 6 8) ++ [45] ++ hexDigits (slice u 8 10)) 23 12
    (by simp [hexDigits_length, l1, l2, l3, l4])
  have s9 := hexEncode_zeros (slice u 10 16)
    (hexDigits (slice u 0 4) ++ [45] ++ hexDigits (slice u 4 6) ++ [45]
      ++ hexDigits (slice u 6 8) ++ [45] ++ hexDigits (slice u 8 10) ++ [45]) 24 12
    (by simp [hexDigits_length, l1, l2, l3, l4]) (by omega)
  rw [l5] at s9
  show hexEncode ((hexEncode ((hexEncode ((hexEncode ((hexEncode (List.replicate 36 0) 0
    (slice u 0 4)).set 8 45) 9 (slice u 4 6)).set 13 45) 14 (slice u 6 8)).set 18 45) 19
    (slice u 8 10)).set 23 45) 24 (slice u 10 16) = _
  rw [s1, s2, s3, s4, s5, s6, s7, s8, s9]
  simp

set_option maxRecDepth 100000 in
theorem hex_of_byte : ∀ b < 256,
    isLowerHexDigit (hextable.getD (b >>> 4) 0) ∧ isLowerHexDigit (hextable.getD (b &&& 0x0f) 0) ∧
    16 * hexval (hextable.getD (b >>> 4) 0) + hexval (hextable.getD (b &&& 0x0f) 0) = b := by
  decide

theorem isHexDigit_of_lower (c : Nat) (h : isLowerHexDigit c) : isHexDigit c := by
  unfold isLowerHexDigit at h; unfold isHexDigit; omega

/-- The text written by `UUID.String` for sixteen given octets. -/
theorem String_cons (b0 b1 b2 b3 b4 b5 b6 b7 b8 b9 b10 b11 b12 b13 b14 b15 : Nat) :
    UUID.String [b0, b1, b2, b3, b4, b5, b6, b7, b8, b9, b10, b11, b12, b13, b14, b15] =
      hextable.getD (b0 >>> 4) 0 :: hextable.getD (b0 &&& 0x0f) 0 ::
      hextable.getD (b1 >>> 4) 0 :: hextable.getD (b1 &&& 0x0f) 0 ::
      hextable.getD (b2 >>> 4) 0 :: hextable.getD (b2 &&& 0x0f) 0 ::
      hextable.getD (b3 >>> 4) 0 :: hextable.getD (b3 &&& 0x0f) 0 :: 45 ::
      hextable.getD (b4 >>> 4) 0 :: hextable.getD (b4 &&& 0x0f) 0 ::
      hextable.getD (b5 >>> 4) 0 :: hextable.getD (b5 &&& 0x0f) 0 :: 45 ::
      hextable.getD (b6 >>> 4) 0 :: hextable.getD (b6 &&& 0x0f) 0 ::
      hextable.getD (b7 >>> 4) 0 :: hextable.getD (b7 &&& 0x0f) 0 :: 45 ::
      hextable.getD (b8 >>> 4) 0 :: hextable.getD (b8 &&& 0x0f) 0 ::
      hextable.getD (b9 >>> 4) 0 :: hextable.getD (b9 &&& 0x0f) 0 :: 45 ::
      hextable.getD (b10 >>> 4) 0 :: hextable.getD (b10 &&& 0x0f) 0 ::
      hextable.getD (b11 >>> 4) 0 :: hextable.getD (b11 &&& 0x0f) 0 ::
      hextable.getD (b12 >>> 4) 0 :: hextable.getD (b12 &&& 0x0f) 0 ::
      hextable.getD (b13 >>> 4) 0 :: hextable.getD (b13 &&& 0x0f) 0 ::
      hextable.getD (b14 >>> 4) 0 :: hextable.getD (b14 &&& 0x0f) 0 ::
      hextable.getD (b15 >>> 4) 0 :: hextable.getD (b15 &&& 0x0f) 0 :: [] := by
  rw [String_layout [b0, b1, b2, b3, b4, b5, b6, b7, b8, b9, b10, b11, b12, b13, b14, b15] rfl]
  simp only [slice, List.take, List.drop, hexDigits, List.cons_append, List.nil_append,
    List.append_assoc]

theorem Parse_String_cons (b0 b1 b2 b3 b4 b5 b6 b7 b8 b9 b10 b11 b12 b13 b14 b15 : Nat)
    (hb : ∀ b ∈ [b0, b1, b2, b3, b4, b5, b6, b7, b8, b9, b10, b11, b12, b13, b14, b15], b < 256) :
    Parse (UUID.String [b0, b1, b2, b3, b4, b5, b6, b7, b8, b9, b10, b11, b12, b13, b14, b15]) =
      ([b0, b1, b2, b3, b4, b5, b6, b7, b8, b9, b10, b11, b12, b13, b14, b15], none) := by
  simp only [List.mem_cons, List.mem_singleton, forall_eq_or_imp, forall_eq] at hb
  obtain ⟨h0, h1, h2, h3, h4, h5, h6, h7, h8, h9, h10, h11, h12, h13, h14, h15, -⟩ := hb
  rw [String_cons, Parse_eq]
  have f0 := hex_of_byte b0 h0
  have f1 := hex_of_byte b1 h1
  have f2 := hex_of_byte b2 h2
  have f3 := hex_of_byte b3 h3
  have f4 := hex_of_byte b4 h4
  have f5 := hex_of_byte b5 h5
  have f6 := hex_of_byte b6 h6
  have f7 := hex_of_byte b7 h7
  have f8 := hex_of_byte b8 h8
  have f9 := hex_of_byte b9 h9
  have f10 := hex_of_byte b10 h10
  have f11 := hex_of_byte b11 h11
  have f12 := hex_of_byte b12 h12
  have f13 := hex_of_byte b13 h13
  have f14 := hex_of_byte b14 h14
  have f15 := hex_of_byte b15 h15
  simp [-List.getD_eq_getElem?_getD, pairOffsets, pairOk, pairValue, isHexDigit_of_lower, f0, f1, f2, f3, f4, f5, f6, f7, f8,
    f9, f10, f11, f12, f13, f14, f15]

theorem list16_exists (v : List Nat) (h : v.length = 16) :
    ∃ b0 b1 b2 b3 b4 b5 b6 b7 b8 b9 b10 b11 b12 b13 b14 b15 : Nat,
      v = [b0, b1, b2, b3, b4, b5, b6, b7, b8, b9, b10, b11, b12, b13, b14, b15] :=
  ⟨_, _, _, _, _, _, _, _, _, _, _, _, _, _, _, _, list16_eq v h⟩

theorem list36_eq (v : List Nat) (h : v.length = 36) :
    v = v.getD 0 0 :: v.getD 1 0 :: v.getD 2 0 :: v.getD 3 0 :: v.getD 4 0 :: v.getD 5 0 ::
      v.getD 6 0 :: v.getD 7 0 :: v.getD 8 0 :: v.getD 9 0 :: v.getD 10 0 :: v.getD 11 0 ::
      v.getD 12 0 :: v.getD 13 0 :: v.getD 14 0 :: v.getD 15 0 :: v.getD 16 0 :: v.getD 17 0 ::
      v.getD 18 0 :: v.getD 19 0 :: v.getD 20 0 :: v.getD 21 0 :: v.getD 22 0 :: v.getD 23 0 ::
      v.getD 24 0 :: v.getD 25 0 :: v.getD 26 0 :: v.getD 27 0 :: v.getD 28 0 :: v.getD 29 0 ::
      v.getD 30 0 :: v.getD 31 0 :: v.getD 32 0 :: v.getD 33 0 :: v.getD 34 0 :: v.getD 35 0 :: [] := by
  have h0 := list_eq_map_range v
  rw [h] at h0
  exact h0

/-! ## Lower-casing and the parser -/

theorem lowerChar_eq_dash (c : Nat) : lowerChar c = 45 ↔ c = 45 := by
  unfold lowerChar; split_ifs <;> omega

theorem isHexDigit_lowerChar (c : Nat) : isHexDigit (lowerChar c) ↔ isHexDigit c := by
  unfold lowerChar isHexDigit; split_ifs <;> omega

theorem isLowerHexDigit_lowerChar (c : Nat) (h : isHexDigit c) :
    isLowerHexDigit (lowerChar c) := by
  unfold isHexDigit at h; unfold lowerChar isLowerHexDigit; split_ifs <;> omega

theorem hexval_lowerChar (c : Nat) : hexval (lowerChar c) = hexval c := by
  unfold lowerChar hexval; split_ifs <;> omega

theorem length_lowercase (s : List Nat) : (lowercase s).length = s.length := by
  simp [lowercase]

theorem getD_lowercase (s : List Nat) (i : Nat) :
    (lowercase s).getD i 0 = lowerChar (s.getD i 0) := by
  have h := @List.getD_map _ _ s 0 i lowerChar
  have h0 : lowerChar 0 = 0 := rfl
  rw [h0] at h
  exact h

theorem pairOk_lowercase (s : List Nat) (x : Nat) : pairOk (lowercase s) x ↔ pairOk s x := by
  simp only [pairOk, getD_lowercase, isHexDigit_lowerChar]

theorem pairValue_lowercase (s : List Nat) (x : Nat) :
    pairValue (lowercase s) x = pairValue s x := by
  simp only [pairValue, getD_lowercase, hexval_lowerChar]

theorem xtob_lowerChar (a b : Nat) : xtob (lowerChar a) (lowerChar b) = xtob a b := by
  simp only [xtob_eq, isHexDigit_lowerChar, hexval_lowerChar]

theorem Parse_lowercase (s : List Nat) : Parse (lowercase s) = Parse s := by
  simp only [Parse_eq, length_lowercase, getD_lowercase, pairOk_lowercase, ne_eq,
    lowerChar_eq_dash]
  have hm : pairOffsets.map (pairValue (lowercase s)) = pairOffsets.map (pairValue s) :=
    List.map_congr_left (fun x _ => pairValue_lowercase s x)
  rw [hm]

/-- What an accepted text looks like, and what it decodes to. -/
theorem Parse_accepted (s : List Nat) (h : (Parse s).2 = none) :
    s.length = 36 ∧ (s.getD 8 0 = 45 ∧ s.getD 13 0 = 45 ∧ s.getD 18 0 = 45 ∧ s.getD 23 0 = 45) ∧
    (∀ x ∈ pairOffsets, pairOk s x) ∧ (Parse s).1 = pairOffsets.map (pairValue s) := by
  rw [Parse_eq] at h ⊢
  by_cases h1 : s.length ≠ 36
  · simp [h1] at h
  · by_cases h2 : s.getD 8 0 ≠ 45 ∨ s.getD 13 0 ≠ 45 ∨ s.getD 18 0 ≠ 45 ∨ s.getD 23 0 ≠ 45
    · rw [if_neg h1, if_pos h2] at h; simp at h
    · by_cases h3 : ∀ x ∈ pairOffsets, pairOk s x
      · rw [if_neg h1, if_neg h2, if_pos h3]
        refine ⟨by omega, ?_, h3, rfl⟩
        omega
      · rw [if_neg h1, if_neg h2, if_neg h3] at h; simp at h

theorem nibbles_of_sum : ∀ h < 16, ∀ l < 16,
    (16 * h + l) >>> 4 = h ∧ (16 * h + l) &&& 0x0f = l := by
  decide

set_option maxRecDepth 100000 in
theorem hextable_hexval : ∀ c < 103, isHexDigit c → hextable.getD (hexval c) 0 = lowerChar c := by
  decide

/-- Re-encoding a decoded pair gives back the two characters in lower case. -/
theorem hex_of_pairValue (s : List Nat) (x : Nat) (h : pairOk s x) :
    hextable.getD (pairValue s x >>> 4) 0 = lowerChar (s.getD x 0) ∧
    hextable.getD (pairValue s x &&& 0x0f) 0 = lowerChar (s.getD (x + 1) 0) := by
  obtain ⟨ha, hb⟩ := h
  have n := nibbles_of_sum _ (hexval_lt (s.getD x 0)) _ (hexval_lt (s.getD (x + 1) 0))
  have la : s.getD x 0 < 103 := by unfold isHexDigit at ha; omega
  have lb : s.getD (x + 1) 0 < 103 := by unfold isHexDigit at hb; omega
  unfold pairValue
  rw [n.1, n.2]
  exact ⟨hextable_hexval _ la ha, hextable_hexval _ lb hb⟩

/-! ## Stamping and the parser's acceptance condition -/

set_option maxRecDepth 100000 in
theorem stamp_version : ∀ b < 256, ((b &&& 0x0f) ||| 0x40) >>> 4 = 4 := by
  decide

set_option maxRecDepth 100000 in
theorem stamp_variant : ∀ b < 256,
    (((b &&& 0x3f) ||| 0x80) >>> 5) ^^^ 0x04 = (b >>> 5) % 2 ∧
    ((b &&& 0x3f) ||| 0x80) >>> 6 = 2 := by
  decide

theorem dashes_iff (s : List Nat) :
    (s.getD 8 0 = 45 ∧ s.getD 13 0 = 45 ∧ s.getD 18 0 = 45 ∧ s.getD 23 0 = 45) ↔
      ∀ i, isDashOffset i → s.getD i 0 = 45 := by
  constructor
  · rintro ⟨d8, d13, d18, d23⟩ i (rfl | rfl | rfl | rfl) <;> assumption
  · intro h
    exact ⟨h 8 (by decide), h 13 (by decide), h 18 (by decide), h 23 (by decide)⟩

theorem pairsOk_iff (s : List Nat) :
    (∀ x ∈ pairOffsets, pairOk s x) ↔ ∀ i < 36, ¬ isDashOffset i → isHexDigit (s.getD i 0) := by
  constructor
  · intro h i hi hnd
    simp only [pairOffsets, List.forall_mem_cons, List.not_mem_nil, false_implies, forall_const,
      and_true, pairOk, Nat.reduceAdd] at h
    interval_cases i <;> first | exact absurd (by decide) hnd | simp only [h]
  · intro h x hx
    simp only [pairOffsets, List.mem_cons, List.mem_singleton, List.not_mem_nil, or_false] at hx
    rcases hx with rfl | rfl | rfl | rfl | rfl | rfl | rfl | rfl | rfl | rfl | rfl | rfl | rfl |
      rfl | rfl | rfl <;> exact ⟨h _ (by decide) (by decide), h _ (by decide) (by decide)⟩

/-! ## The claims -/

/-- C1. Round trip: for every UUID value `v` (any sixteen octets), parsing the
text `v.String()` succeeds and returns exactly `v`. -/
theorem Parse_String_roundtrip (v : UUID) (h : UUID.Valid v) :
    Parse (UUID.String v) = (v, none) := by
  obtain ⟨b0, b1, b2, b3, b4, b5, b6, b7, b8, b9, b10, b11, b12, b13, b14, b15, rfl⟩ :=
    list16_exists v h.1
  exact Parse_String_cons _ _ _ _ _ _ _ _ _ _ _ _ _ _ _ _ h.2

theorem Parse_String_roundtrip_witness :
    UUID.Valid sampleV1 ∧ Parse (UUID.String sampleV1) = (sampleV1, none) :=
  ⟨by decide, Parse_String_roundtrip sampleV1 (by decide)⟩

/-- C2. Format inverts Parse up to case: if `Parse` accepts `s` then it accepts
`lowercase s`, and formatting the value parsed from `lowercase s` gives back
`lowercase s`. -/
theorem String_Parse_lowercase (s : List Nat) (h : (Parse s).2 = none) :
    (Parse (lowercase s)).2 = none ∧ UUID.String (Parse (lowercase s)).1 = lowercase s := by
  obtain ⟨hl, ⟨d8, d13, d18, d23⟩, hok, hv⟩ := Parse_accepted s h
  rw [Parse_lowercase]
  refine ⟨h, ?_⟩
  rw [hv]
  have e := list36_eq (lowercase s) (by rw [length_lowercase, hl])
  simp only [getD_lowercase] at e
  rw [e]
  simp only [pairOffsets, List.forall_mem_cons, List.not_mem_nil, false_implies, forall_const,
    and_true, forall_eq, List.forall_mem_singleton] at hok
  obtain ⟨k0, k1, k2, k3, k4, k5, k6, k7, k8, k9, k10, k11, k12, k13, k14, k15⟩ := hok
  have f0 := hex_of_pairValue s _ k0
  have f1 := hex_of_pairValue s _ k1
  have f2 := hex_of_pairValue s _ k2
  have f3 := hex_of_pairValue s _ k3
  have f4 := hex_of_pairValue s _ k4
  have f5 := hex_of_pairValue s _ k5
  have f6 := hex_of_pairValue s _ k6
  have f7 := hex_of_pairValue s _ k7
  have f8 := hex_of_pairValue s _ k8
  have f9 := hex_of_pairValue s _ k9
  have f10 := hex_of_pairValue s _ k10
  have f11 := hex_of_pairValue s _ k11
  have f12 := hex_of_pairValue s _ k12
  have f13 := hex_of_pairValue s _ k13
  have f14 := hex_of_pairValue s _ k14
  have f15 := hex_of_pairValue s _ k15
  have l45 : lowerChar 45 = 45 := rfl
  simp only [pairOffsets, List.map, String_cons, f0, f1, f2, f3, f4, f5, f6, f7, f8, f9, f10,
    f11, f12, f13, f14, f15, d8, d13, d18, d23, l45]

theorem String_Parse_lowercase_witness :
    (Parse sampleUpper).2 = none ∧ (Parse (lowercase sampleUpper)).2 = none ∧
      UUID.String (Parse (lowercase sampleUpper)).1 = lowercase sampleUpper :=
  ⟨by decide, String_Parse_lowercase sampleUpper (by decide)⟩

/-- C3. Idempotent casing: if `Parse` accepts `s` then it accepts `lowercase s`
and returns the same value for both; upper-case and lower-case hex digits
decode to the same octet. -/
theorem Parse_lowercase_same (s : List Nat) (h : (Parse s).2 = none) :
    (Parse (lowercase s)).2 = none ∧ Parse s = Parse (lowercase s) ∧
      ∀ a b : Nat, xtob (lowerChar a) (lowerChar b) = xtob a b := by
  rw [Parse_lowercase]
  exact ⟨h, rfl, xtob_lowerChar⟩

theorem Parse_lowercase_same_witness :
    (Parse sampleUpper).2 = none ∧ (Parse (lowercase sampleUpper)).2 = none ∧
      Parse sampleUpper = Parse (lowercase sampleUpper) ∧
      ∀ a b : Nat, xtob (lowerChar a) (lowerChar b) = xtob a b :=
  ⟨by decide, Parse_lowercase_same sampleUpper (by decide)⟩

/-- C4 fails as stated: for the draw `sampleV1` the generated value has
version 4 but its `Variant()` is not 4. -/
theorem NewUUIDv4_variant_not_four :
    UUID.Valid sampleV1 ∧ (NewUUIDv4 (Except.ok sampleV1)).2 = none ∧
      ¬ (UUID.Version (NewUUIDv4 (Except.ok sampleV1)).1 = 4 ∧
          UUID.Variant (NewUUIDv4 (Except.ok sampleV1)).1 = 4) := by
  decide

/-- C4, amended. Generation invariant: for every sixteen octets drawn,
`NewUUIDv4` succeeds with a value whose `Version()` is 4 and whose `Variant()`
is bit 5 of the drawn octet 8, hence 0 or 1 and never 4. -/
theorem NewUUIDv4_version_variant (r : List Nat) (h : UUID.Valid r) :
    (NewUUIDv4 (Except.ok r)).2 = none ∧
      UUID.Version (NewUUIDv4 (Except.ok r)).1 = 4 ∧
      UUID.Variant (NewUUIDv4 (Except.ok r)).1 = (r.getD 8 0 >>> 5) % 2 ∧
      UUID.Variant (NewUUIDv4 (Except.ok r)).1 < 2 := by
  have h6 := stamp_version _ (getD_lt_of_valid r h 6)
  have h8 := (stamp_variant _ (getD_lt_of_valid r h 8)).1
  obtain ⟨b0, b1, b2, b3, b4, b5, b6, b7, b8, b9, b10, b11, b12, b13, b14, b15, rfl⟩ :=
    list16_exists r h.1
  simp only [List.getD_cons_succ, List.getD_cons_zero] at h6 h8
  simp only [NewUUIDv4, UUID.Version, UUID.Variant, List.set, List.getD_cons_succ,
    List.getD_cons_zero, h6, h8, true_and]
  omega

theorem NewUUIDv4_version_variant_witness :
    UUID.Valid sampleV1 ∧ (NewUUIDv4 (Except.ok sampleV1)).2 = none ∧
      UUID.Version (NewUUIDv4 (Except.ok sampleV1)).1 = 4 ∧
      UUID.Variant (NewUUIDv4 (Except.ok sampleV1)).1 = (sampleV1.getD 8 0 >>> 5) % 2 ∧
      UUID.Variant (NewUUIDv4 (Except.ok sampleV1)).1 < 2 :=
  ⟨by decide, NewUUIDv4_version_variant sampleV1 (by decide)⟩

/-- C5. Well-formed v4 stamping: for every sixteen octets drawn, the value
returned by `NewUUIDv4` has octet 6 equal to `(drawn6 & 0x0F) | 0x40` and octet
8 equal to `(drawn8 & 0x3F) | 0x80`; the high four bits of octet 6 are `0100`
and the top two bits of octet 8 are `10`. -/
theorem NewUUIDv4_stamping (r : List Nat) (h : UUID.Valid r) :
    (NewUUIDv4 (Except.ok r)).2 = none ∧
      (NewUUIDv4 (Except.ok r)).1.getD 6 0 = (r.getD 6 0 &&& 0x0f) ||| 0x40 ∧
      (NewUUIDv4 (Except.ok r)).1.getD 8 0 = (r.getD 8 0 &&& 0x3f) ||| 0x80 ∧
      (NewUUIDv4 (Except.ok r)).1.getD 6 0 >>> 4 = 4 ∧
      (NewUUIDv4 (Except.ok r)).1.getD 8 0 >>> 6 = 2 := by
  have h6 := stamp_version _ (getD_lt_of_valid r h 6)
  have h8 := (stamp_variant _ (getD_lt_of_valid r h 8)).2
  obtain ⟨b0, b1, b2, b3, b4, b5, b6, b7, b8, b9, b10, b11, b12, b13, b14, b15, rfl⟩ :=
    list16_exists r h.1
  simp only [List.getD_cons_succ, List.getD_cons_zero] at h6 h8
  simp only [NewUUIDv4, List.set, List.getD_cons_succ, List.getD_cons_zero, h6, h8, true_and]

theorem NewUUIDv4_stamping_witness :
    UUID.Valid sampleV1 ∧ (NewUUIDv4 (Except.ok sampleV1)).2 = none ∧
      (NewUUIDv4 (Except.ok sampleV1)).1.getD 6 0 = (sampleV1.getD 6 0 &&& 0x0f) ||| 0x40 ∧
      (NewUUIDv4 (Except.ok sampleV1)).1.getD 8 0 = (sampleV1.getD 8 0 &&& 0x3f) ||| 0x80 ∧
      (NewUUIDv4 (Except.ok sampleV1)).1.getD 6 0 >>> 4 = 4 ∧
      (NewUUIDv4 (Except.ok sampleV1)).1.getD 8 0 >>> 6 = 2 :=
  ⟨by decide, NewUUIDv4_stamping sampleV1 (by decide)⟩

/-- C6. Parse acceptance: `Parse s` succeeds if and only if `s` has length 36,
the characters at offsets 8, 13, 18, 23 are dashes and each of the other 32
characters is a hex digit (nothing is asked of version or variant bits); a
length-36 text with correct dashes and a non-hex character at one of those 32
offsets fails with `ErrInvalidUUIDFormat`. -/
theorem Parse_accepts_iff (s : List Nat) :
    ((Parse s).2 = none ↔
      s.length = 36 ∧ (∀ i, isDashOffset i → s.getD i 0 = 45) ∧
        ∀ i < 36, ¬ isDashOffset i → isHexDigit (s.getD i 0)) ∧
    (s.length = 36 → (∀ i, isDashOffset i → s.getD i 0 = 45) →
      (∃ i < 36, ¬ isDashOffset i ∧ ¬ isHexDigit (s.getD i 0)) →
      Parse s = (Nil, some ErrInvalidUUIDFormat)) := by
  refine ⟨⟨fun h => ?_, fun h => ?_⟩, fun hl hd hx => ?_⟩
  · obtain ⟨hl, hd, hok, -⟩ := Parse_accepted s h
    exact ⟨hl, (dashes_iff s).1 hd, (pairsOk_iff s).1 hok⟩
  · obtain ⟨hl, hd, hx⟩ := h
    have hd2 := (dashes_iff s).2 hd
    have h1 : ¬ s.length ≠ 36 := by omega
    have h2 : ¬ (s.getD 8 0 ≠ 45 ∨ s.getD 13 0 ≠ 45 ∨ s.getD 18 0 ≠ 45 ∨ s.getD 23 0 ≠ 45) := by
      omega
    rw [Parse_eq, if_neg h1, if_neg h2, if_pos ((pairsOk_iff s).2 hx)]
  · have hd2 := (dashes_iff s).2 hd
    have h1 : ¬ s.length ≠ 36 := by omega
    have h2 : ¬ (s.getD 8 0 ≠ 45 ∨ s.getD 13 0 ≠ 45 ∨ s.getD 18 0 ≠ 45 ∨ s.getD 23 0 ≠ 45) := by
      omega
    have h3 : ¬ ∀ x ∈ pairOffsets, pairOk s x := by
      intro hok
      obtain ⟨i, hi, hnd, hnh⟩ := hx
      exact hnh ((pairsOk_iff s).1 hok i hi hnd)
    rw [Parse_eq, if_neg h1, if_neg h2, if_neg h3]

theorem Parse_accepts_iff_witness :
    (Parse sampleBadHex).2 ≠ none ∧ Parse sampleBadHex = (Nil, some ErrInvalidUUIDFormat) :=
  ⟨by decide, (Parse_accepts_iff sampleBadHex).2 (by decide) (by
    rintro i (rfl | rfl | rfl | rfl) <;> decide) ⟨34, by decide, by decide, by decide⟩⟩

/-- C7. Parse decoding: when `Parse` accepts `s`, the result has sixteen octets
and octet `i` is `16 * hexval a + hexval b` for the two characters `a`, `b` of `s`
at offsets `x`, `x + 1`, where `x` is the `i`-th of the offsets
0, 2, 4, 6, 9, 11, 14, 16, 19, 21, 24, 26, 28, 30, 32, 34. -/
theorem Parse_decodes (s : List Nat) (h : (Parse s).2 = none) :
    (Parse s).1.length = 16 ∧
    pairOffsets = [0, 2, 4, 6, 9, 11, 14, 16, 19, 21, 24, 26, 28, 30, 32, 34] ∧
    ∀ i < 16, (Parse s).1.getD i 0 =
      16 * hexval (s.getD (pairOffsets.getD i 0) 0) +
        hexval (s.getD (pairOffsets.getD i 0 + 1) 0) := by
  obtain ⟨-, -, -, hv⟩ := Parse_accepted s h
  rw [hv]
  refine ⟨rfl, rfl, fun i hi => ?_⟩
  interval_cases i <;> rfl

theorem Parse_decodes_witness :
    (Parse sampleUpper).2 = none ∧ (Parse sampleUpper).1.length = 16 ∧
    pairOffsets = [0, 2, 4, 6, 9, 11, 14, 16, 19, 21, 24, 26, 28, 30, 32, 34] ∧
    ∀ i < 16, (Parse sampleUpper).1.getD i 0 =
      16 * hexval (sampleUpper.getD (pairOffsets.getD i 0) 0) +
        hexval (sampleUpper.getD (pairOffsets.getD i 0 + 1) 0) :=
  ⟨by decide, Parse_decodes sampleUpper (by decide)⟩

/-- C8. Text length rejection: every text whose length is not 36 is rejected
by `Parse` with `ErrInvalidLength`, whatever its content. -/
theorem Parse_length_rejection (s : List Nat) (h : s.length ≠ 36) :
    Parse s = (Nil, some ErrInvalidLength) := by
  unfold Parse
  rw [if_pos h]

theorem Parse_length_rejection_witness :
    sampleShort.length = 35 ∧ Parse sampleShort = (Nil, some ErrInvalidLength) :=
  ⟨by decide, Parse_length_rejection sampleShort (by decide)⟩

/-- C9. Dash-position rejection: every text of length 36 in which one of the
characters at offsets 8, 13, 18, 23 is not a dash is rejected by `Parse` with
`ErrInvalidUUIDFormat`, whatever the other characters are. -/
theorem Parse_dash_rejection (s : List Nat) (hl : s.length = 36)
    (hd : ∃ i, isDashOffset i ∧ s.getD i 0 ≠ 45) :
    Parse s = (Nil, some ErrInvalidUUIDFormat) := by
  have h1 : ¬ s.length ≠ 36 := by omega
  have h2 : s.getD 8 0 ≠ 45 ∨ s.getD 13 0 ≠ 45 ∨ s.getD 18 0 ≠ 45 ∨ s.getD 23 0 ≠ 45 := by
    obtain ⟨i, (rfl | rfl | rfl | rfl), hne⟩ := hd
    · exact Or.inl hne
    · exact Or.inr (Or.inl hne)
    · exact Or.inr (Or.inr (Or.inl hne))
    · exact Or.inr (Or.inr (Or.inr hne))
  unfold Parse
  rw [if_neg h1, if_pos h2]

theorem Parse_dash_rejection_witness :
    sampleBadDash.length = 36 ∧ sampleBadDash.getD 8 0 = 95 ∧
      Parse sampleBadDash = (Nil, some ErrInvalidUUIDFormat) :=
  ⟨by decide, by decide,
    Parse_dash_rejection sampleBadDash (by decide) ⟨8, by decide, by decide⟩⟩

/-- C10. Canonical shape of Format: for every UUID value `v`, the text
`v.String()` has exactly 36 characters, the characters at offsets 8, 13, 18, 23
are dashes and every other character is one of `0-9`, `a-f`; and
`Nil.String()` is `00000000-0000-0000-0000-000000000000`. -/
theorem String_canonical_shape (v : UUID) (h : UUID.Valid v) :
    (UUID.String v).length = 36 ∧
    (∀ i, isDashOffset i → (UUID.String v).getD i 0 = 45) ∧
    (∀ i < 36, ¬ isDashOffset i → isLowerHexDigit ((UUID.String v).getD i 0)) ∧
    UUID.String Nil = asciiBytes "00000000-0000-0000-0000-000000000000" := by
  obtain ⟨b0, b1, b2, b3, b4, b5, b6, b7, b8, b9, b10, b11, b12, b13, b14, b15, rfl⟩ :=
    list16_exists v h.1
  have hb := h.2
  simp only [List.mem_cons, List.mem_singleton, forall_eq_or_imp, forall_eq] at hb
  obtain ⟨h0, h1, h2, h3, h4, h5, h6, h7, h8, h9, h10, h11, h12, h13, h14, h15, -⟩ := hb
  have f0 := hex_of_byte b0 h0
  have f1 := hex_of_byte b1 h1
  have f2 := hex_of_byte b2 h2
  have f3 := hex_of_byte b3 h3
  have f4 := hex_of_byte b4 h4
  have f5 := hex_of_byte b5 h5
  have f6 := hex_of_byte b6 h6
  have f7 := hex_of_byte b7 h7
  have f8 := hex_of_byte b8 h8
  have f9 := hex_of_byte b9 h9
  have f10 := hex_of_byte b10 h10
  have f11 := hex_of_byte b11 h11
  have f12 := hex_of_byte b12 h12
  have f13 := hex_of_byte b13 h13
  have f14 := hex_of_byte b14 h14
  have f15 := hex_of_byte b15 h15
  rw [String_cons]
  refine ⟨rfl, ?_, ?_, by decide⟩
  · rintro i (rfl | rfl | rfl | rfl) <;> rfl
  · intro i hi hnd
    interval_cases i <;> first
      | exact absurd (by decide) hnd
      | simp only [List.getD_cons_succ, List.getD_cons_zero, f0, f1, f2, f3, f4, f5, f6, f7, f8,
          f9, f10, f11, f12, f13, f14, f15]

theorem String_canonical_shape_witness :
    UUID.Valid sampleV1 ∧ (UUID.String sampleV1).length = 36 ∧
    (∀ i, isDashOffset i → (UUID.String sampleV1).getD i 0 = 45) ∧
    (∀ i < 36, ¬ isDashOffset i → isLowerHexDigit ((UUID.String sampleV1).getD i 0)) ∧
    UUID.String Nil = asciiBytes "00000000-0000-0000-0000-000000000000" :=
  ⟨by decide, String_canonical_shape sampleV1 (by decide)⟩

/-! ## The codecs -/

set_option maxRecDepth 100000 in
theorem hextable_hexDigitChar : ∀ b < 256,
    hextable.getD (b >>> 4) 0 = hexDigitChar (b / 16) ∧
    hextable.getD (b &&& 0x0f) 0 = hexDigitChar (b % 16) := by
  decide

theorem hexDigits_eq_hexText (l : List Nat) (h : ∀ b ∈ l, b < 256) :
    hexDigits l = hexText l := by
  induction l with
  | nil => rfl
  | cons b l ih =>
    have hb := hextable_hexDigitChar b (h b (List.mem_cons_self b l))
    rw [hexDigits, hexText, hb.1, hb.2, ih (fun c hc => h c (List.mem_cons_of_mem b hc))]

theorem slice_bytes (u : List Nat) (lo hi : Nat) (h : ∀ b ∈ u, b < 256) :
    ∀ b ∈ slice u lo hi, b < 256 := by
  intro b hb
  exact h b (List.mem_of_mem_take (List.mem_of_mem_drop hb))

theorem copy16 (b u : List Nat) (hb : b.length = 16) (hu : u.length = 16) :
    b.take 16 ++ u.drop 16 = b := by
  rw [List.take_of_length_le (by omega), List.drop_of_length_le (by omega), List.append_nil]

theorem slice_all (u : List Nat) (hu : u.length = 16) : slice u 0 16 = u := by
  rw [slice, List.take_of_length_le (by omega), List.drop_zero]

theorem UnmarshalText_eq (u : UUID) (d : List Nat) :
    UUID.UnmarshalText u d =
      if (Parse d).2 = none then ((Parse d).1, none) else (u, (Parse d).2) := by
  unfold UUID.UnmarshalText
  rcases Parse d with ⟨id, _ | err⟩ <;> simp

/-- C11. Octet-to-group layout of Format: for every UUID value `v`, the text
`v.String()` is `hex(v[0..3])`, a dash, `hex(v[4..5])`, a dash, `hex(v[6..7])`,
a dash, `hex(v[8..9])`, a dash, `hex(v[10..15])`, where `hex` writes each octet
as two lower-case hex digits, high nibble first; with the dashes left out the
groups are the hex text of the sixteen binary octets in their own order. -/
theorem String_group_layout (v : UUID) (h : UUID.Valid v) :
    UUID.String v =
      hexText (slice v 0 4) ++ [45] ++ hexText (slice v 4 6) ++ [45] ++
      hexText (slice v 6 8) ++ [45] ++ hexText (slice v 8 10) ++ [45] ++
      hexText (slice v 10 16) ∧
    hexText (slice v 0 4) ++ hexText (slice v 4 6) ++ hexText (slice v 6 8) ++
      hexText (slice v 8 10) ++ hexText (slice v 10 16) = hexText (UUID.MarshalBinary v).1 := by
  constructor
  · rw [String_layout v h.1, hexDigits_eq_hexText _ (slice_bytes v 0 4 h.2),
      hexDigits_eq_hexText _ (slice_bytes v 4 6 h.2),
      hexDigits_eq_hexText _ (slice_bytes v 6 8 h.2),
      hexDigits_eq_hexText _ (slice_bytes v 8 10 h.2),
      hexDigits_eq_hexText _ (slice_bytes v 10 16 h.2)]
  · obtain ⟨b0, b1, b2, b3, b4, b5, b6, b7, b8, b9, b10, b11, b12, b13, b14, b15, rfl⟩ :=
      list16_exists v h.1
    rfl

theorem String_group_layout_witness :
    UUID.Valid sampleV1 ∧
    UUID.String sampleV1 =
      hexText (slice sampleV1 0 4) ++ [45] ++ hexText (slice sampleV1 4 6) ++ [45] ++
      hexText (slice sampleV1 6 8) ++ [45] ++ hexText (slice sampleV1 8 10) ++ [45] ++
      hexText (slice sampleV1 10 16) ∧
    hexText (slice sampleV1 0 4) ++ hexText (slice sampleV1 4 6) ++
      hexText (slice sampleV1 6 8) ++ hexText (slice sampleV1 8 10) ++
      hexText (slice sampleV1 10 16) = hexText (UUID.MarshalBinary sampleV1).1 :=
  ⟨by decide, String_group_layout sampleV1 (by decide)⟩

/-- C12. Binary round trip: for every 16-byte buffer `b` and every prior
receiver value `u`, `UnmarshalBinary(b)` succeeds, and `MarshalBinary` of the
resulting value returns exactly `b` with no error. -/
theorem Binary_roundtrip (u : UUID) (b : List Nat) (hu : UUID.Valid u) (hb : UUID.Valid b) :
    (UUID.UnmarshalBinary u b).2 = none ∧
    UUID.MarshalBinary (UUID.UnmarshalBinary u b).1 = (b, none) := by
  have h1 : ¬ b.length ≠ 16 := by have := hb.1; omega
  unfold UUID.UnmarshalBinary
  rw [if_neg h1, copy16 b u hb.1 hu.1]
  unfold UUID.MarshalBinary
  rw [slice_all b hb.1]
  exact ⟨rfl, rfl⟩

theorem Binary_roundtrip_witness :
    UUID.Valid sampleV4 ∧ UUID.Valid sampleV1 ∧
    (UUID.UnmarshalBinary sampleV4 sampleV1).2 = none ∧
    UUID.MarshalBinary (UUID.UnmarshalBinary sampleV4 sampleV1).1 = (sampleV1, none) :=
  ⟨by decide, by decide, Binary_roundtrip sampleV4 sampleV1 (by decide) (by decide)⟩

/-- C13. Binary decode length check: for every byte buffer `b`,
`UnmarshalBinary(b)` succeeds if and only if `len(b) == 16`; then the receiver
becomes `b` verbatim; for every other length it fails with `ErrInvalidLength`. -/
theorem UnmarshalBinary_length (u : UUID) (b : List Nat) (hu : UUID.Valid u) :
    ((UUID.UnmarshalBinary u b).2 = none ↔ b.length = 16) ∧
    (b.length = 16 → UUID.UnmarshalBinary u b = (b, none)) ∧
    (b.length ≠ 16 → (UUID.UnmarshalBinary u b).2 = some ErrInvalidLength) := by
  unfold UUID.UnmarshalBinary
  by_cases hl : b.length = 16
  · have h1 : ¬ b.length ≠ 16 := by omega
    rw [if_neg h1, copy16 b u hl hu.1]
    exact ⟨⟨fun _ => hl, fun _ => rfl⟩, fun _ => rfl, fun hne => absurd hl hne⟩
  · rw [if_pos hl]
    exact ⟨⟨fun hn => by simp at hn, fun he => absurd he hl⟩, fun he => absurd he hl,
      fun _ => rfl⟩

theorem UnmarshalBinary_length_witness :
    UUID.Valid sampleV4 ∧
    UUID.UnmarshalBinary sampleV4 sampleV1 = (sampleV1, none) ∧
    (UUID.UnmarshalBinary sampleV4 []).2 = some ErrInvalidLength ∧
    (UUID.UnmarshalBinary sampleV4 sampleText).2 = some ErrInvalidLength :=
  ⟨by decide, (UnmarshalBinary_length sampleV4 sampleV1 (by decide)).2.1 (by decide),
    (UnmarshalBinary_length sampleV4 [] (by decide)).2.2 (by decide),
    (UnmarshalBinary_length sampleV4 sampleText (by decide)).2.2 (by decide)⟩

/-! ## Text decoding through the codecs -/

theorem Parse_String_of_valid (v : UUID) (h : UUID.Valid v) :
    Parse (UUID.String v) = (v, none) := by
  obtain ⟨b0, b1, b2, b3, b4, b5, b6, b7, b8, b9, b10, b11, b12, b13, b14, b15, rfl⟩ :=
    list16_exists v h.1
  exact Parse_String_cons _ _ _ _ _ _ _ _ _ _ _ _ _ _ _ _ h.2

theorem UnmarshalText_String (u v : UUID) (h : UUID.Valid v) :
    UUID.UnmarshalText u (UUID.String v) = (v, none) := by
  rw [UnmarshalText_eq, Parse_String_of_valid v h]
  rfl

theorem hexDigitChar_lt (n : Nat) (h : n < 16) : hexDigitChar n < 128 := by
  unfold hexDigitChar; split_ifs <;> omega

theorem hexText_ascii (l : List Nat) (h : ∀ b ∈ l, b < 256) : ∀ c ∈ hexText l, c < 128 := by
  induction l with
  | nil => intro c hc; simp [hexText] at hc
  | cons b l ih =>
    intro c hc
    have hb := h b (List.mem_cons_self b l)
    simp only [hexText, List.mem_cons] at hc
    rcases hc with rfl | rfl | hc
    · exact hexDigitChar_lt _ (by omega)
    · exact hexDigitChar_lt _ (by omega)
    · exact ih (fun c hc => h c (List.mem_cons_of_mem b hc)) c hc

theorem String_ascii (v : UUID) (h : UUID.Valid v) : ∀ c ∈ UUID.String v, c < 128 := by
  intro c hc
  rw [String_layout v h.1] at hc
  simp only [List.mem_append, List.mem_singleton] at hc
  have a1 := hexText_ascii _ (slice_bytes v 0 4 h.2) c
  have a2 := hexText_ascii _ (slice_bytes v 4 6 h.2) c
  have a3 := hexText_ascii _ (slice_bytes v 6 8 h.2) c
  have a4 := hexText_ascii _ (slice_bytes v 8 10 h.2) c
  have a5 := hexText_ascii _ (slice_bytes v 10 16 h.2) c
  rw [← hexDigits_eq_hexText _ (slice_bytes v 0 4 h.2)] at a1
  rw [← hexDigits_eq_hexText _ (slice_bytes v 4 6 h.2)] at a2
  rw [← hexDigits_eq_hexText _ (slice_bytes v 6 8 h.2)] at a3
  rw [← hexDigits_eq_hexText _ (slice_bytes v 8 10 h.2)] at a4
  rw [← hexDigits_eq_hexText _ (slice_bytes v 10 16 h.2)] at a5
  rcases hc with (((((((hc | hc) | hc) | hc) | hc) | hc) | hc) | hc) | hc
  · exact a1 hc
  · omega
  · exact a2 hc
  · omega
  · exact a3 hc
  · omega
  · exact a4 hc
  · omega
  · exact a5 hc

theorem String_length (v : UUID) (h : UUID.Valid v) : (UUID.String v).length = 36 := by
  obtain ⟨b0, b1, b2, b3, b4, b5, b6, b7, b8, b9, b10, b11, b12, b13, b14, b15, rfl⟩ :=
    list16_exists v h.1
  rw [String_cons]
  rfl

/-- C14. Opaque-storage decode dispatch: `Scan` (a) given a UUID value sets
the receiver to it and succeeds; (b) given exactly 16 bytes sets the receiver
to them and succeeds; (c) given any other byte sequence, or any text, behaves
as the text decode of that content, with the error of `Parse`; (d) given `nil`
sets the receiver to the nil value and succeeds; and for any other kind of
input fails with the cannot-convert error. -/
theorem Scan_dispatch (u : UUID) (hu : UUID.Valid u) :
    (∀ v : UUID, UUID.Scan u (Src.uuid v) = (v, none)) ∧
    (∀ b : List Nat, b.length = 16 → UUID.Scan u (Src.bytes b) = (b, none)) ∧
    (∀ b : List Nat, b.length ≠ 16 →
      UUID.Scan u (Src.bytes b) = UUID.UnmarshalText u b ∧
      (UUID.Scan u (Src.bytes b)).2 = (Parse b).2 ∧
      ((Parse b).2 = none → (UUID.Scan u (Src.bytes b)).1 = (Parse b).1)) ∧
    (∀ s : List Nat,
      UUID.Scan u (Src.str s) = UUID.UnmarshalText u s ∧
      (UUID.Scan u (Src.str s)).2 = (Parse s).2 ∧
      ((Parse s).2 = none → (UUID.Scan u (Src.str s)).1 = (Parse s).1)) ∧
    UUID.Scan u Src.nil = (Nil, none) ∧
    UUID.Scan u Src.other = (u, some cannotConvert) := by
  have key : ∀ d : List Nat, (UUID.UnmarshalText u d).2 = (Parse d).2 ∧
      ((Parse d).2 = none → (UUID.UnmarshalText u d).1 = (Parse d).1) := by
    intro d
    rw [UnmarshalText_eq]
    by_cases hp : (Parse d).2 = none
    · rw [if_pos hp]; exact ⟨hp.symm, fun _ => rfl⟩
    · rw [if_neg hp]; exact ⟨rfl, fun h => absurd h hp⟩
  refine ⟨fun v => rfl, fun b hb => ?_, fun b hb => ?_, fun s => ⟨rfl, key s⟩, rfl, rfl⟩
  · show (if b.length = 16 then (b.take 16 ++ u.drop 16, none) else UUID.UnmarshalText u b) = _
    rw [if_pos hb, copy16 b u hb hu.1]
  · have e : UUID.Scan u (Src.bytes b) = UUID.UnmarshalText u b := by
      show (if b.length = 16 then (b.take 16 ++ u.drop 16, none) else UUID.UnmarshalText u b) = _
      rw [if_neg hb]
    rw [e]
    exact ⟨rfl, key b⟩

theorem Scan_dispatch_witness :
    UUID.Valid sampleV4 ∧
    UUID.Scan sampleV4 (Src.bytes sampleV1) = (sampleV1, none) ∧
    UUID.Scan sampleV4 (Src.str sampleText16) = (sampleV4, some ErrInvalidLength) ∧
    UUID.Scan sampleV4 Src.nil = (Nil, none) :=
  ⟨by decide, (Scan_dispatch sampleV4 (by decide)).2.1 sampleV1 (by decide), by decide,
    (Scan_dispatch sampleV4 (by decide)).2.2.2.2.1⟩

/-- C15. Text codec: for every UUID value `v`, `MarshalText(v)` never fails and
returns the 36 ASCII bytes of `v.String()`; for every byte sequence `d`,
`UnmarshalText(d)` succeeds exactly when `Parse(d)` does, then sets the receiver
to the parsed value, and otherwise returns the error of `Parse`; hence
`UnmarshalText(MarshalText(v))` yields `v`. -/
theorem Text_codec (u v : UUID) (d : List Nat) (hv : UUID.Valid v) :
    UUID.MarshalText v = (UUID.String v, none) ∧
    (UUID.String v).length = 36 ∧ (∀ c ∈ UUID.String v, c < 128) ∧
    ((UUID.UnmarshalText u d).2 = none ↔ (Parse d).2 = none) ∧
    ((Parse d).2 = none → UUID.UnmarshalText u d = ((Parse d).1, none)) ∧
    (UUID.UnmarshalText u d).2 = (Parse d).2 ∧
    UUID.UnmarshalText u (UUID.MarshalText v).1 = (v, none) := by
  refine ⟨rfl, String_length v hv, String_ascii v hv, ?_, ?_, ?_, UnmarshalText_String u v hv⟩
  · rw [UnmarshalText_eq]
    by_cases hp : (Parse d).2 = none
    · rw [if_pos hp]; exact ⟨fun _ => hp, fun _ => rfl⟩
    · rw [if_neg hp]
  · intro hp
    rw [UnmarshalText_eq, if_pos hp]
  · rw [UnmarshalText_eq]
    by_cases hp : (Parse d).2 = none
    · rw [if_pos hp]; exact hp.symm
    · rw [if_neg hp]

theorem Text_codec_witness :
    UUID.Valid sampleV1 ∧
    UUID.MarshalText sampleV1 = (UUID.String sampleV1, none) ∧
    (UUID.String sampleV1).length = 36 ∧ (∀ c ∈ UUID.String sampleV1, c < 128) ∧
    ((UUID.UnmarshalText sampleV4 sampleBadDash).2 = none ↔ (Parse sampleBadDash).2 = none) ∧
    ((Parse sampleBadDash).2 = none →
      UUID.UnmarshalText sampleV4 sampleBadDash = ((Parse sampleBadDash).1, none)) ∧
    (UUID.UnmarshalText sampleV4 sampleBadDash).2 = (Parse sampleBadDash).2 ∧
    UUID.UnmarshalText sampleV4 (UUID.MarshalText sampleV1).1 = (sampleV1, none) :=
  ⟨by decide, Text_codec sampleV4 sampleV1 sampleBadDash (by decide)⟩

/-! ## Errors, introspection and storage -/

set_option maxRecDepth 100000 in
theorem byte_introspection : ∀ b < 256,
    b >>> 4 < 16 ∧ (b >>> 5) ^^^ 0x04 < 8 ∧
    (b >>> 6 = 2 →
      (b &&& 0x20 = 0 → (b >>> 5) ^^^ 0x04 = 0) ∧
      (b &&& 0x20 ≠ 0 → (b >>> 5) ^^^ 0x04 = 1) ∧ (b >>> 5) ^^^ 0x04 < 2) := by
  decide

/-- C16. No partial value on error: whenever `Parse` fails, at the length
check, at the dash check or at any of the sixteen hex pairs, the UUID returned
with the error is the all-zero nil value. -/
theorem Parse_error_Nil (s : List Nat) (h : (Parse s).2 ≠ none) :
    (Parse s).1 = Nil ∧ Nil = List.replicate 16 0 := by
  refine ⟨?_, rfl⟩
  rw [Parse_eq] at h ⊢
  by_cases h1 : s.length ≠ 36
  · rw [if_pos h1]
  · by_cases h2 : s.getD 8 0 ≠ 45 ∨ s.getD 13 0 ≠ 45 ∨ s.getD 18 0 ≠ 45 ∨ s.getD 23 0 ≠ 45
    · rw [if_neg h1, if_pos h2]
    · by_cases h3 : ∀ x ∈ pairOffsets, pairOk s x
      · rw [if_neg h1, if_neg h2, if_pos h3] at h
        exact absurd rfl h
      · rw [if_neg h1, if_neg h2, if_neg h3]

theorem Parse_error_Nil_witness :
    (Parse sampleBadHex).2 = some ErrInvalidUUIDFormat ∧
    (xtob (sampleBadHex.getD 32 0) (sampleBadHex.getD 33 0)).2 = true ∧
    (Parse sampleBadHex).1 = Nil ∧ Nil = List.replicate 16 0 :=
  ⟨by decide, by decide, Parse_error_Nil sampleBadHex (by decide)⟩

/-- C17. Version of a parsed value: when `Parse` accepts `s`, the `Version()`
of the result is the numeric value (0..15) of the hex digit at offset 14 of
`s`, with no check that it is 4. -/
theorem Parse_Version (s : List Nat) (h : (Parse s).2 = none) :
    UUID.Version (Parse s).1 = hexval (s.getD 14 0) ∧ hexval (s.getD 14 0) < 16 ∧
    UUID.Version (Parse s).1 = (Parse s).1.getD 6 0 >>> 4 := by
  obtain ⟨-, -, -, hv⟩ := Parse_accepted s h
  refine ⟨?_, hexval_lt _, rfl⟩
  rw [hv]
  show (16 * hexval (s.getD 14 0) + hexval (s.getD (14 + 1) 0)) >>> 4 = _
  exact (nibbles_of_sum _ (hexval_lt _) _ (hexval_lt _)).1

theorem Parse_Version_witness :
    (Parse sampleText).2 = none ∧ hexval (sampleText.getD 14 0) = 4 ∧
    UUID.Version (Parse sampleText).1 = hexval (sampleText.getD 14 0) ∧
    hexval (sampleText.getD 14 0) < 16 ∧
    UUID.Version (Parse sampleText).1 = (Parse sampleText).1.getD 6 0 >>> 4 :=
  ⟨by decide, by decide, Parse_Version sampleText (by decide)⟩

/-- C18. Decode atomicity: for every receiver value `u`, whenever
`UnmarshalText`, `UnmarshalBinary` or `Scan` returns an error, the receiver
still equals `u` afterwards. -/
theorem Decode_atomic (u : UUID) (d : List Nat) (src : Src) :
    ((UUID.UnmarshalText u d).2 ≠ none → (UUID.UnmarshalText u d).1 = u) ∧
    ((UUID.UnmarshalBinary u d).2 ≠ none → (UUID.UnmarshalBinary u d).1 = u) ∧
    ((UUID.Scan u src).2 ≠ none → (UUID.Scan u src).1 = u) := by
  have key : ∀ t : List Nat,
      (UUID.UnmarshalText u t).2 ≠ none → (UUID.UnmarshalText u t).1 = u := by
    intro t
    rw [UnmarshalText_eq]
    by_cases hp : (Parse t).2 = none
    · rw [if_pos hp]; intro h; exact absurd rfl h
    · rw [if_neg hp]; intro _; rfl
  refine ⟨key d, ?_, ?_⟩
  · unfold UUID.UnmarshalBinary
    by_cases hl : d.length ≠ 16
    · rw [if_pos hl]; intro _; rfl
    · rw [if_neg hl]; intro h; exact absurd rfl h
  · cases src with
    | uuid v => intro h; exact absurd rfl h
    | bytes b =>
      show (if b.length = 16 then (b.take 16 ++ u.drop 16, none) else UUID.UnmarshalText u b).2
          ≠ none →
        (if b.length = 16 then (b.take 16 ++ u.drop 16, none) else UUID.UnmarshalText u b).1 = u
      by_cases hl : b.length = 16
      · rw [if_pos hl]; intro h; exact absurd rfl h
      · rw [if_neg hl]; exact key b
    | str t => exact key t
    | nil => intro h; exact absurd rfl h
    | other => intro _; rfl

theorem Decode_atomic_witness :
    (UUID.UnmarshalText sampleV4 sampleBadHex).2 ≠ none ∧
    (UUID.UnmarshalText sampleV4 sampleBadHex).1 = sampleV4 ∧
    (UUID.UnmarshalBinary sampleV4 sampleShort).2 ≠ none ∧
    (UUID.UnmarshalBinary sampleV4 sampleShort).1 = sampleV4 ∧
    (UUID.Scan sampleV4 Src.other).2 ≠ none ∧
    (UUID.Scan sampleV4 Src.other).1 = sampleV4 :=
  ⟨by decide, (Decode_atomic sampleV4 sampleBadHex Src.other).1 (by decide),
    by decide, (Decode_atomic sampleV4 sampleShort Src.other).2.1 (by decide),
    by decide, (Decode_atomic sampleV4 sampleBadHex Src.other).2.2 (by decide)⟩

/-- C19. Storage round trip: for every UUID value `v` and every prior receiver
`u`, `Value(v)` succeeds with the text `v.String()`, `Scan` of that text succeeds
and sets the receiver to `v`, and `Scan` of the 16 bytes of `MarshalBinary(v)`
sets the receiver to `v`. -/
theorem Storage_roundtrip (u v : UUID) (hu : UUID.Valid u) (hv : UUID.Valid v) :
    UUID.Value v = (UUID.String v, none) ∧
    UUID.Scan u (Src.str (UUID.Value v).1) = (v, none) ∧
    (UUID.MarshalBinary v).1.length = 16 ∧
    UUID.Scan u (Src.bytes (UUID.MarshalBinary v).1) = (v, none) := by
  have hm : (UUID.MarshalBinary v).1 = v := slice_all v hv.1
  refine ⟨rfl, UnmarshalText_String u v hv, ?_, ?_⟩
  · rw [hm]; exact hv.1
  · rw [hm]
    show (if v.length = 16 then (v.take 16 ++ u.drop 16, none) else UUID.UnmarshalText u v) = _
    rw [if_pos hv.1, copy16 v u hv.1 hu.1]

theorem Storage_roundtrip_witness :
    UUID.Valid sampleV4 ∧ UUID.Valid sampleV1 ∧
    UUID.Value sampleV1 = (UUID.String sampleV1, none) ∧
    UUID.Scan sampleV4 (Src.str (UUID.Value sampleV1).1) = (sampleV1, none) ∧
    (UUID.MarshalBinary sampleV1).1.length = 16 ∧
    UUID.Scan sampleV4 (Src.bytes (UUID.MarshalBinary sampleV1).1) = (sampleV1, none) :=
  ⟨by decide, by decide, Storage_roundtrip sampleV4 sampleV1 (by decide) (by decide)⟩

/-- C20. Range of the introspection results: for every UUID value `v`,
`Version()` is in 0..15 and `Variant()` is `(octet8 >> 5) XOR 4`, in 0..7; when
octet 8 has top two bits `10`, `Variant()` is 0 if bit 5 of octet 8 is clear and
1 if it is set; so it is 0 or 1 for every generated value. -/
theorem Version_Variant_range (v : UUID) (h : UUID.Valid v) :
    UUID.Version v < 16 ∧
    UUID.Variant v = (v.getD 8 0 >>> 5) ^^^ 0x04 ∧ UUID.Variant v < 8 ∧
    (v.getD 8 0 >>> 6 = 2 →
      (v.getD 8 0 &&& 0x20 = 0 → UUID.Variant v = 0) ∧
      (v.getD 8 0 &&& 0x20 ≠ 0 → UUID.Variant v = 1) ∧ UUID.Variant v < 2) ∧
    (∀ r : List Nat, UUID.Valid r →
      (NewUUIDv4 (Except.ok r)).1.getD 8 0 >>> 6 = 2 ∧
      UUID.Variant (NewUUIDv4 (Except.ok r)).1 < 2) := by
  have b6 := byte_introspection _ (getD_lt_of_valid v h 6)
  have b8 := byte_introspection _ (getD_lt_of_valid v h 8)
  refine ⟨b6.1, rfl, b8.2.1, b8.2.2, fun r hr => ?_⟩
  have s8 := stamp_variant _ (getD_lt_of_valid r hr 8)
  obtain ⟨b0, b1, b2, b3, b4, b5, b6, b7, b8, b9, b10, b11, b12, b13, b14, b15, rfl⟩ :=
    list16_exists r hr.1
  simp only [List.getD_cons_succ, List.getD_cons_zero] at s8
  simp only [NewUUIDv4, UUID.Variant, List.set, List.getD_cons_succ, List.getD_cons_zero, s8,
    true_and]
  omega

theorem Version_Variant_range_witness :
    UUID.Valid sampleV4 ∧ sampleV4.getD 8 0 >>> 6 = 2 ∧ UUID.Variant sampleV4 = 1 ∧
    UUID.Version sampleV4 < 16 ∧
    UUID.Variant sampleV4 = (sampleV4.getD 8 0 >>> 5) ^^^ 0x04 ∧ UUID.Variant sampleV4 < 8 ∧
    (sampleV4.getD 8 0 >>> 6 = 2 →
      (sampleV4.getD 8 0 &&& 0x20 = 0 → UUID.Variant sampleV4 = 0) ∧
      (sampleV4.getD 8 0 &&& 0x20 ≠ 0 → UUID.Variant sampleV4 = 1) ∧
      UUID.Variant sampleV4 < 2) ∧
    (∀ r : List Nat, UUID.Valid r →
      (NewUUIDv4 (Except.ok r)).1.getD 8 0 >>> 6 = 2 ∧
      UUID.Variant (NewUUIDv4 (Except.ok r)).1 < 2) :=
  ⟨by decide, by decide, by decide, Version_Variant_range sampleV4 (by decide)⟩

end uuid
